import Mathlib

/-!
safemap: a map owned by a single command-processing goroutine

A shallow embedding of `safeMap.go`.  The goroutine `run` owns the local
variable `store` and consumes one `command` at a time from the unbuffered
channel `commandStream`; the public methods build a command, send it and
(for the synchronous ones) receive the answer on a private reply channel.

The embedding is sequential: a state of the system is the state of the
command channel together with the current contents of `store`, and a public
method is a function from states to a fault or a returned value, a new state
and the list of observable events the run loop performed while it handled
the command.
-/

namespace Safemap

/-! ## Values and the store -/

/-- A dynamic Go value of type `interface{}`.  `nil` is the zero value of the
interface type; `func` stands for a function value, which `encoding/gob`
refuses to encode. -/
inductive Value where
  | nil
  | int (n : Int)
  | str (s : String)
  | bool (b : Bool)
  | func (id : Nat)
  deriving DecidableEq

/-- The Go type `map[string]interface{}`: a finite map from strings to values. -/
abbrev Store := Finmap (fun _ : String => Value)

/-- The two-result index expression `v, f := store[key]`: the zero value and
`false` when the key has no entry. -/
def index (store : Store) (key : String) : Value × Bool :=
  match store.lookup key with
  | some v => (v, true)
  | none => (Value.nil, false)

/-- The builtin `len(store)`: the number of entries. -/
def len (store : Store) : Nat :=
  Multiset.card store.entries

/-! ## Commands -/

/-- The constants `remove .. end` of type `commandAction` (`end` is written
`end_`, the word being reserved). -/
inductive commandAction where
  | remove
  | get
  | put
  | length
  | snapshot
  | update
  | end_
  deriving DecidableEq

/-- The type `updater`: `func(interface{}, bool) interface{}`. -/
abbrev updater := Value → Bool → Value

/-- The struct `command`.  The channel `res` and the three callbacks are
represented by whether they are non-nil; `atomicUpdateFunc` is `none` when
the field is nil. -/
structure command where
  action : commandAction
  key : String
  value : Value
  res : Bool
  getCallBack : Bool
  lenCallBack : Bool
  updateCallBack : Bool
  atomicUpdateFunc : Option updater

/-- The zero command for a given action: every other field has its zero value,
as in a composite literal that names only `action`. -/
def command.zero (a : commandAction) : command :=
  ⟨a, "", Value.nil, false, false, false, false, none⟩

/-- A value sent on a reply channel of type `chan interface{}`. -/
inductive Reply where
  | getResult (value : Value) (exist : Bool)
  | int (n : Nat)
  | value (v : Value)
  | map (m : Store)
  deriving DecidableEq

/-- What the run loop does that is observable from outside of it. -/
inductive Event where
  | send (r : Reply)
  | updaterCall (v : Value) (f : Bool)
  | getCallBack (v : Value) (f : Bool)
  | lenCallBack (n : Nat)
  | updateCallBack (v : Value)
  | close
  deriving DecidableEq

/-- The ways an execution can fail to return. -/
inductive Fault where
  | sendOnClosedChannel
  | nilFuncCall
  | typeAssertion
  | blockedForever
  deriving DecidableEq

/-! ## deepCopy -/

/-- The value handed to `deepCopy` as `dst`: a map passed as it is, or the
address of a map. -/
inductive Target where
  | nonPointer (m : Store)
  | pointer (m : Store)
  deriving DecidableEq

/-- The map a target denotes. -/
def Target.contents : Target → Store
  | Target.nonPointer m => m
  | Target.pointer m => m

/-- Whether `encoding/gob` can encode the value held in an interface:
function values cannot be sent in a gob. -/
def gobEncodable : Value → Bool
  | Value.func _ => false
  | _ => true

/-- `gob.NewEncoder(&buf).Encode(src)` for a `map[string]interface{}`: the
buffer carries the contents of the map, and encoding fails when some value
cannot be encoded. -/
def gobEncode (src : Store) : Except String Store :=
  if src.all (fun _ v => gobEncodable v) then Except.ok src
  else Except.error "gob: type not registered for interface"

/-- `gob.NewDecoder(buf).Decode(dst)`: `Decode` refuses a destination that is
not a pointer and leaves it untouched; into a pointer to a map it stores the
decoded entries. -/
def gobDecode (buf : Store) (dst : Target) : Target × Option String :=
  match dst with
  | Target.nonPointer m => (Target.nonPointer m, some "gob: attempt to decode into a non-pointer")
  | Target.pointer m => (Target.pointer (buf ∪ m), none)

/-- The function `deepCopy(dst, src interface{}) error`, returning the state of
`dst` afterwards together with the error (`none` for a nil error). -/
def deepCopy (dst : Target) (src : Store) : Target × Option String :=
  match gobEncode src with
  | Except.error err => (dst, some err)
  | Except.ok buf => gobDecode buf dst

/-! ## The run loop -/

/-- The outcome of one iteration of the loop in `run`. -/
structure Step where
  store : Store
  events : List Event
  closed : Bool

/-- The events of `if c.res != nil { c.res <- r }`. -/
def reply (c : command) (r : Reply) : List Event :=
  if c.res then [Event.send r] else []

/-- One iteration of `for c := range sm.commandStream { switch c.action ... }`.
A send on a nil `c.res` in the `snapshot` and `end` branches never completes. -/
def dispatch (store : Store) (c : command) : Except Fault Step :=
  match c.action with
  | commandAction.remove => Except.ok ⟨store.erase c.key, [], false⟩
  | commandAction.put => Except.ok ⟨store.insert c.key c.value, [], false⟩
  | commandAction.get =>
    let vf := index store c.key
    Except.ok ⟨store,
      reply c (Reply.getResult vf.1 vf.2)
        ++ (if c.getCallBack then [Event.getCallBack vf.1 vf.2] else []), false⟩
  | commandAction.length =>
    Except.ok ⟨store,
      reply c (Reply.int (len store))
        ++ (if c.lenCallBack then [Event.lenCallBack (len store)] else []), false⟩
  | commandAction.update =>
    match c.atomicUpdateFunc with
    | none => Except.error Fault.nilFuncCall
    | some u =>
      let vf := index store c.key
      let store1 := store.insert c.key (u vf.1 vf.2)
      Except.ok ⟨store1,
        [Event.updaterCall vf.1 vf.2]
          ++ reply c (Reply.value (index store1 c.key).1)
          ++ (if c.updateCallBack then [Event.updateCallBack (index store1 c.key).1] else []),
        false⟩
  | commandAction.snapshot =>
    let snapshotMap : Store := ∅
    let copied := deepCopy (Target.nonPointer snapshotMap) store
    if c.res then Except.ok ⟨store, [Event.send (Reply.map copied.1.contents)], false⟩
    else Except.error Fault.blockedForever
  | commandAction.end_ =>
    if c.res then Except.ok ⟨store, [Event.close, Event.send (Reply.map store)], true⟩
    else Except.error Fault.blockedForever

/-- The state of a channel. -/
inductive Chan where
  | opened
  | closed
  deriving DecidableEq

/-- The system behind a `*SafeMap`: the channel `commandStream` and the
variable `store` local to `run`. -/
structure SafeMap where
  commandStream : Chan
  store : Store

/-- The function `New`: an open channel and a run loop with an empty store. -/
def New : SafeMap :=
  ⟨Chan.opened, ∅⟩

/-- The statement `sm.commandStream <- c` followed by the iteration of `run`
that receives `c`.  A send on a closed channel panics. -/
def send (sm : SafeMap) (c : command) : Except Fault (SafeMap × List Event) :=
  match sm.commandStream with
  | Chan.closed => Except.error Fault.sendOnClosedChannel
  | Chan.opened =>
    match dispatch sm.store c with
    | Except.error e => Except.error e
    | Except.ok s => Except.ok (⟨if s.closed then Chan.closed else Chan.opened, s.store⟩, s.events)

/-- The receive `<-reply`: the value the run loop sent on the reply channel, if any. -/
def recv : List Event → Option Reply
  | [] => none
  | Event.send r :: _ => some r
  | _ :: es => recv es

/-! ## The public methods -/

/-- What a public method hands back: the returned value, the system afterwards
and the events of the run loop. -/
structure Ret (α : Type) where
  val : α
  sm : SafeMap
  events : List Event

/-- The method `Put`. -/
def Put (sm : SafeMap) (key : String) (value : Value) : Except Fault (Ret Unit) :=
  match send sm { command.zero commandAction.put with key := key, value := value } with
  | Except.error e => Except.error e
  | Except.ok (sm1, evs) => Except.ok ⟨(), sm1, evs⟩

/-- The method `Remove`. -/
def Remove (sm : SafeMap) (key : String) : Except Fault (Ret Unit) :=
  match send sm { command.zero commandAction.remove with key := key } with
  | Except.error e => Except.error e
  | Except.ok (sm1, evs) => Except.ok ⟨(), sm1, evs⟩

/-- The method `Get`: the reply is asserted to be a `getResult`. -/
def Get (sm : SafeMap) (key : String) : Except Fault (Ret (Value × Bool)) :=
  match send sm { command.zero commandAction.get with key := key, res := true } with
  | Except.error e => Except.error e
  | Except.ok (sm1, evs) =>
    match recv evs with
    | none => Except.error Fault.blockedForever
    | some (Reply.getResult v f) => Except.ok ⟨(v, f), sm1, evs⟩
    | some _ => Except.error Fault.typeAssertion

/-- The method `Len`: the reply is asserted to be an `int`. -/
def Len (sm : SafeMap) : Except Fault (Ret Nat) :=
  match send sm { command.zero commandAction.length with res := true } with
  | Except.error e => Except.error e
  | Except.ok (sm1, evs) =>
    match recv evs with
    | none => Except.error Fault.blockedForever
    | some (Reply.int n) => Except.ok ⟨n, sm1, evs⟩
    | some _ => Except.error Fault.typeAssertion

/-- The method `Close`: the reply is asserted to be a map. -/
def Close (sm : SafeMap) : Except Fault (Ret Store) :=
  match send sm { command.zero commandAction.end_ with res := true } with
  | Except.error e => Except.error e
  | Except.ok (sm1, evs) =>
    match recv evs with
    | none => Except.error Fault.blockedForever
    | some (Reply.map m) => Except.ok ⟨m, sm1, evs⟩
    | some _ => Except.error Fault.typeAssertion

/-- The method `Update`: the reply is returned as it is.  A nil `updateFunc`
is `none`. -/
def Update (sm : SafeMap) (key : String) (updateFunc : Option updater) :
    Except Fault (Ret Value) :=
  match send sm { command.zero commandAction.update with
      res := true, atomicUpdateFunc := updateFunc, key := key } with
  | Except.error e => Except.error e
  | Except.ok (sm1, evs) =>
    match recv evs with
    | none => Except.error Fault.blockedForever
    | some (Reply.value v) => Except.ok ⟨v, sm1, evs⟩
    | some _ => Except.error Fault.typeAssertion

/-- The method `Snapshot`: the reply is asserted to be a map. -/
def Snapshot (sm : SafeMap) : Except Fault (Ret Store) :=
  match send sm { command.zero commandAction.snapshot with res := true } with
  | Except.error e => Except.error e
  | Except.ok (sm1, evs) =>
    match recv evs with
    | none => Except.error Fault.blockedForever
    | some (Reply.map m) => Except.ok ⟨m, sm1, evs⟩
    | some _ => Except.error Fault.typeAssertion

/-- The method `AsyncGet`; `callback` tells whether the function passed is non-nil. -/
def AsyncGet (sm : SafeMap) (key : String) (callback : Bool) : Except Fault (Ret Unit) :=
  match send sm { command.zero commandAction.get with key := key, getCallBack := callback } with
  | Except.error e => Except.error e
  | Except.ok (sm1, evs) => Except.ok ⟨(), sm1, evs⟩

/-- The method `AsyncLen`: the command it sends has the action `get`. -/
def AsyncLen (sm : SafeMap) (key : String) (callback : Bool) : Except Fault (Ret Unit) :=
  match send sm { command.zero commandAction.get with key := key, lenCallBack := callback } with
  | Except.error e => Except.error e
  | Except.ok (sm1, evs) => Except.ok ⟨(), sm1, evs⟩

/-- The method `AsyncUpdate`. -/
def AsyncUpdate (sm : SafeMap) (key : String) (updateFunc : Option updater) (callback : Bool) :
    Except Fault (Ret Unit) :=
  match send sm { command.zero commandAction.update with
      atomicUpdateFunc := updateFunc, key := key, updateCallBack := callback } with
  | Except.error e => Except.error e
  | Except.ok (sm1, evs) => Except.ok ⟨(), sm1, evs⟩

/-! ## Sequences of calls -/

/-- The arguments with which the updater was called, in order. -/
def updaterCalls : List Event → List (Value × Bool)
  | [] => []
  | Event.updaterCall v f :: es => (v, f) :: updaterCalls es
  | _ :: es => updaterCalls es

/-- The counts handed to the length callback, in order. -/
def lenCallBacks : List Event → List Nat
  | [] => []
  | Event.lenCallBack n :: es => n :: lenCallBacks es
  | _ :: es => lenCallBacks es

/-- A call of `Put`, `Remove` or `Update` with a non-nil updater. -/
inductive Mutation where
  | put (key : String) (value : Value)
  | remove (key : String)
  | update (key : String) (updateFunc : updater)

/-- The system after one mutating call. -/
def Mutation.apply (sm : SafeMap) : Mutation → Except Fault SafeMap
  | Mutation.put k v => (Put sm k v).map Ret.sm
  | Mutation.remove k => (Remove sm k).map Ret.sm
  | Mutation.update k f => (Update sm k (some f)).map Ret.sm

/-- The system after a list of mutating calls made one after another. -/
def applyAll (sm : SafeMap) : List Mutation → Except Fault SafeMap
  | [] => Except.ok sm
  | m :: ms =>
    match m.apply sm with
    | Except.error e => Except.error e
    | Except.ok sm1 => applyAll sm1 ms

/-- A call of a public method. -/
inductive Call where
  | put (key : String) (value : Value)
  | remove (key : String)
  | get (key : String)
  | len
  | close
  | update (key : String) (updateFunc : Option updater)
  | snapshot
  | asyncGet (key : String) (callback : Bool)
  | asyncLen (key : String) (callback : Bool)
  | asyncUpdate (key : String) (updateFunc : Option updater) (callback : Bool)

/-- The returned parts common to all methods: the system afterwards and the
events of the run loop. -/
def Ret.forget {α : Type} (r : Ret α) : SafeMap × List Event :=
  (r.sm, r.events)

/-- The effect of a call, the returned value left out. -/
def Call.exec (sm : SafeMap) : Call → Except Fault (SafeMap × List Event)
  | Call.put k v => (Put sm k v).map Ret.forget
  | Call.remove k => (Remove sm k).map Ret.forget
  | Call.get k => (Get sm k).map Ret.forget
  | Call.len => (Len sm).map Ret.forget
  | Call.close => (Close sm).map Ret.forget
  | Call.update k f => (Update sm k f).map Ret.forget
  | Call.snapshot => (Snapshot sm).map Ret.forget
  | Call.asyncGet k cb => (AsyncGet sm k cb).map Ret.forget
  | Call.asyncLen k cb => (AsyncLen sm k cb).map Ret.forget
  | Call.asyncUpdate k f cb => (AsyncUpdate sm k f cb).map Ret.forget

/-- The system after a list of calls made one after another, with the events of
the run loop.  A call that panics on its send has reached nothing: the next
call finds the system as it was.  Any other fault ends the execution. -/
def afterCalls (sm : SafeMap) : List Call → Except Fault (SafeMap × List Event)
  | [] => Except.ok (sm, [])
  | c :: cs =>
    match c.exec sm with
    | Except.ok (sm1, evs) =>
      match afterCalls sm1 cs with
      | Except.ok (sm2, evs2) => Except.ok (sm2, evs ++ evs2)
      | Except.error e => Except.error e
    | Except.error Fault.sendOnClosedChannel => afterCalls sm cs
    | Except.error e => Except.error e

/-- The pairs handed to the get callback, in order. -/
def getCallBacks : List Event → List (Value × Bool)
  | [] => []
  | Event.getCallBack v f :: es => (v, f) :: getCallBacks es
  | _ :: es => getCallBacks es

/-- The values handed to the update callback, in order. -/
def updateCallBacks : List Event → List Value
  | [] => []
  | Event.updateCallBack v :: es => v :: updateCallBacks es
  | _ :: es => updateCallBacks es

/-- The key a mutating call names. -/
def Mutation.key : Mutation → String
  | Mutation.put k _ => k
  | Mutation.remove k => k
  | Mutation.update k _ => k

/-- A mutating call with what it hands back to its caller: the new value for
`Update`, nothing for `Put` and `Remove`. -/
def Mutation.call (sm : SafeMap) : Mutation → Except Fault (Ret (Option Value))
  | Mutation.put k v => (Put sm k v).map (fun r => ⟨none, r.sm, r.events⟩)
  | Mutation.remove k => (Remove sm k).map (fun r => ⟨none, r.sm, r.events⟩)
  | Mutation.update k f => (Update sm k (some f)).map (fun r => ⟨some r.val, r.sm, r.events⟩)

/-- The store `{"a": 1}`. -/
def storeA : Store :=
  Finmap.singleton "a" (Value.int 1)

/-- The store `{"a": 1, "f": func}`, one of whose values gob cannot encode. -/
def storeF : Store :=
  (Finmap.singleton "a" (Value.int 1)).insert "f" (Value.func 0)

/-- The updater `x => x + 10` on integers (any other value is left as it is). -/
def addTen : updater := fun v _ =>
  match v with
  | Value.int n => Value.int (n + 10)
  | w => w

/-! ## Basic facts -/

theorem index_insert_self (store : Store) (k : String) (v : Value) :
    index (store.insert k v) k = (v, true) := by
  simp [index, Finmap.lookup_insert]

theorem index_erase_self (store : Store) (k : String) :
    index (store.erase k) k = (Value.nil, false) := by
  simp [index, Finmap.lookup_erase]

theorem index_snd_eq_true (store : Store) (k : String) :
    (index store k).2 = true ↔ k ∈ store := by
  unfold index
  cases h : store.lookup k with
  | none => simpa using Finmap.lookup_eq_none.mp h
  | some v => simpa using Finmap.mem_of_lookup_eq_some h

theorem len_eq_card_keys (store : Store) : len store = store.keys.card := by
  unfold len Finmap.keys Multiset.keys
  simp

theorem Put_opened (store : Store) (k : String) (v : Value) :
    Put ⟨Chan.opened, store⟩ k v = Except.ok ⟨(), ⟨Chan.opened, store.insert k v⟩, []⟩ := rfl

theorem Remove_opened (store : Store) (k : String) :
    Remove ⟨Chan.opened, store⟩ k = Except.ok ⟨(), ⟨Chan.opened, store.erase k⟩, []⟩ := rfl

theorem Get_opened (store : Store) (k : String) :
    Get ⟨Chan.opened, store⟩ k
      = Except.ok ⟨index store k, ⟨Chan.opened, store⟩,
          [Event.send (Reply.getResult (index store k).1 (index store k).2)]⟩ := rfl

theorem Len_opened (store : Store) :
    Len ⟨Chan.opened, store⟩
      = Except.ok ⟨len store, ⟨Chan.opened, store⟩, [Event.send (Reply.int (len store))]⟩ := rfl

theorem Update_opened (store : Store) (k : String) (f : updater) :
    Update ⟨Chan.opened, store⟩ k (some f)
      = Except.ok ⟨(index (store.insert k (f (index store k).1 (index store k).2)) k).1,
          ⟨Chan.opened, store.insert k (f (index store k).1 (index store k).2)⟩,
          [Event.updaterCall (index store k).1 (index store k).2,
           Event.send (Reply.value
             (index (store.insert k (f (index store k).1 (index store k).2)) k).1)]⟩ := rfl

theorem Close_opened (store : Store) :
    Close ⟨Chan.opened, store⟩
      = Except.ok ⟨store, ⟨Chan.closed, store⟩, [Event.close, Event.send (Reply.map store)]⟩ := rfl

theorem exec_closed (store : Store) (c : Call) :
    c.exec ⟨Chan.closed, store⟩ = Except.error Fault.sendOnClosedChannel := by
  cases c <;> rfl

theorem afterCalls_closed (store : Store) (cs : List Call) :
    afterCalls ⟨Chan.closed, store⟩ cs = Except.ok (⟨Chan.closed, store⟩, []) := by
  induction cs with
  | nil => rfl
  | cons c cs ih => simp only [afterCalls, exec_closed, ih]

theorem applyAll_opened (store : Store) (ms : List Mutation) :
    ∃ store1, applyAll ⟨Chan.opened, store⟩ ms = Except.ok ⟨Chan.opened, store1⟩ := by
  induction ms generalizing store with
  | nil => exact ⟨store, rfl⟩
  | cons m ms ih =>
    cases m with
    | put k v => exact ih (store.insert k v)
    | remove k => exact ih (store.erase k)
    | update k f => exact ih (store.insert k (f (index store k).1 (index store k).2))

theorem Snapshot_opened (store : Store) :
    Snapshot ⟨Chan.opened, store⟩
      = Except.ok ⟨∅, ⟨Chan.opened, store⟩, [Event.send (Reply.map ∅)]⟩ := by
  have h : (deepCopy (Target.nonPointer ∅) store).1.contents = ∅ := by
    unfold deepCopy
    cases gobEncode store <;> rfl
  simp only [Snapshot, send, dispatch, command.zero, h]
  rfl

theorem AsyncGet_opened (store : Store) (k : String) :
    AsyncGet ⟨Chan.opened, store⟩ k true
      = Except.ok ⟨(), ⟨Chan.opened, store⟩,
          [Event.getCallBack (index store k).1 (index store k).2]⟩ := rfl

theorem AsyncLen_opened (store : Store) (k : String) (cb : Bool) :
    AsyncLen ⟨Chan.opened, store⟩ k cb = Except.ok ⟨(), ⟨Chan.opened, store⟩, []⟩ := rfl

theorem AsyncUpdate_opened (store : Store) (k : String) (f : updater) :
    AsyncUpdate ⟨Chan.opened, store⟩ k (some f) true
      = Except.ok ⟨(), ⟨Chan.opened, store.insert k (f (index store k).1 (index store k).2)⟩,
          [Event.updaterCall (index store k).1 (index store k).2,
           Event.updateCallBack
             (index (store.insert k (f (index store k).1 (index store k).2)) k).1]⟩ := rfl

theorem index_insert_of_ne (store : Store) {k k1 : String} (v : Value) (h : k1 ≠ k) :
    index (store.insert k v) k1 = index store k1 := by
  simp [index, Finmap.lookup_insert_of_ne store h]

theorem index_erase_of_ne (store : Store) {k k1 : String} (h : k1 ≠ k) :
    index (store.erase k) k1 = index store k1 := by
  simp [index, Finmap.lookup_erase_ne h]

theorem erase_of_lookup_eq_none (store : Store) (k : String) (h : store.lookup k = none) :
    store.erase k = store := by
  apply Finmap.ext_lookup
  intro x
  by_cases hx : x = k
  · subst hx
    rw [Finmap.lookup_erase, h]
  · exact Finmap.lookup_erase_ne hx

theorem erase_insert_of_ne (store : Store) {k1 k2 : String} (v : Value) (h : k1 ≠ k2) :
    (store.insert k1 v).erase k2 = (store.erase k2).insert k1 v := by
  apply Finmap.ext_lookup
  intro x
  by_cases h2 : x = k2
  · subst h2
    rw [Finmap.lookup_erase, Finmap.lookup_insert_of_ne _ (Ne.symm h), Finmap.lookup_erase]
  · rw [Finmap.lookup_erase_ne h2]
    by_cases h1 : x = k1
    · subst h1
      rw [Finmap.lookup_insert, Finmap.lookup_insert]
    · rw [Finmap.lookup_insert_of_ne _ h1, Finmap.lookup_insert_of_ne _ h1,
        Finmap.lookup_erase_ne h2]

theorem applyAll_lookup_of_ne (k : String) (ms : List Mutation) (store : Store)
    (hms : ∀ m ∈ ms, Mutation.key m ≠ k) :
    ∃ store1, applyAll ⟨Chan.opened, store⟩ ms = Except.ok ⟨Chan.opened, store1⟩
      ∧ store1.lookup k = store.lookup k := by
  induction ms generalizing store with
  | nil => exact ⟨store, rfl, rfl⟩
  | cons m ms ih =>
    have hm : Mutation.key m ≠ k := hms m (List.mem_cons_self m ms)
    have hrest : ∀ m1 ∈ ms, Mutation.key m1 ≠ k := fun m1 h1 => hms m1 (List.mem_cons_of_mem m h1)
    cases m with
    | put k1 v =>
      obtain ⟨store1, h1, h2⟩ := ih (store.insert k1 v) hrest
      exact ⟨store1, h1, h2.trans (Finmap.lookup_insert_of_ne store (Ne.symm hm))⟩
    | remove k1 =>
      obtain ⟨store1, h1, h2⟩ := ih (store.erase k1) hrest
      exact ⟨store1, h1, h2.trans (Finmap.lookup_erase_ne (Ne.symm hm))⟩
    | update k1 f =>
      obtain ⟨store1, h1, h2⟩ :=
        ih (store.insert k1 (f (index store k1).1 (index store k1).2)) hrest
      exact ⟨store1, h1, h2.trans (Finmap.lookup_insert_of_ne store (Ne.symm hm))⟩

/-! ## The claims -/

/-- C1: in a running map, `Put(k, v)` followed at once by `Get(k)` makes `Get`
return `(v, true)`, whatever the store held before. -/
theorem put_then_get (sm : SafeMap) (k : String) (v : Value)
    (h : sm.commandStream = Chan.opened) :
    ∃ p g, Put sm k v = Except.ok p ∧ Get p.sm k = Except.ok g ∧ g.val = (v, true) := by
  obtain ⟨cs, store⟩ := sm
  subst h
  exact ⟨_, _, Put_opened store k v, Get_opened _ k, index_insert_self store k v⟩

theorem put_then_get_witness :
    New.commandStream = Chan.opened ∧ ∃ p g, Put New "a" (Value.int 1) = Except.ok p ∧ Get p.sm "a" = Except.ok g
      ∧ g.val = (Value.int 1, true) :=
  ⟨rfl, put_then_get New "a" (Value.int 1) rfl⟩

/-- C2: in a running map, `Remove(k)` followed at once by `Get(k)` makes `Get`
return the nil value and `exists = false`, whether or not `k` was present. -/
theorem remove_then_get (sm : SafeMap) (k : String)
    (h : sm.commandStream = Chan.opened) :
    ∃ p g, Remove sm k = Except.ok p ∧ Get p.sm k = Except.ok g
      ∧ g.val = (Value.nil, false) := by
  obtain ⟨cs, store⟩ := sm
  subst h
  exact ⟨_, _, Remove_opened store k, Get_opened _ k, index_erase_self store k⟩

theorem remove_then_get_witness :
    (SafeMap.mk Chan.opened storeA).commandStream = Chan.opened ∧ ∃ p g, Remove ⟨Chan.opened, storeA⟩ "a" = Except.ok p ∧ Get p.sm "a" = Except.ok g
      ∧ g.val = (Value.nil, false) :=
  ⟨rfl, remove_then_get ⟨Chan.opened, storeA⟩ "a" rfl⟩

/-- C3: in a running map, `Update(k, f)` calls `f` exactly once, with
`(existing, true)` when `k` holds `existing` and with `(nil, false)` when `k`
is absent; it stores the result of `f` under `k`, returns that result, and a
`Get(k)` made at once afterwards returns that result with `true`. -/
theorem update_calls_once_stores_returns (sm : SafeMap) (k : String) (f : updater)
    (h : sm.commandStream = Chan.opened) :
    ∃ u g, Update sm k (some f) = Except.ok u
      ∧ (∀ existing, sm.store.lookup k = some existing →
          updaterCalls u.events = [(existing, true)] ∧ u.val = f existing true)
      ∧ (sm.store.lookup k = none →
          updaterCalls u.events = [(Value.nil, false)] ∧ u.val = f Value.nil false)
      ∧ u.sm.store.lookup k = some u.val
      ∧ Get u.sm k = Except.ok g ∧ g.val = (u.val, true) := by
  obtain ⟨cs, store⟩ := sm
  subst h
  refine ⟨_, _, Update_opened store k f, ?_, ?_, ?_, Get_opened _ k, ?_⟩
  · intro existing he
    simp [updaterCalls, index, he, Finmap.lookup_insert]
  · intro hn
    simp [updaterCalls, index, hn, Finmap.lookup_insert]
  · simp [index, Finmap.lookup_insert]
  · simp [index, Finmap.lookup_insert]

theorem update_calls_once_stores_returns_witness :
    (SafeMap.mk Chan.opened storeA).commandStream = Chan.opened ∧ ∃ u g, Update ⟨Chan.opened, storeA⟩ "a" (some addTen) = Except.ok u
      ∧ (∀ existing, storeA.lookup "a" = some existing →
          updaterCalls u.events = [(existing, true)] ∧ u.val = addTen existing true)
      ∧ (storeA.lookup "a" = none →
          updaterCalls u.events = [(Value.nil, false)] ∧ u.val = addTen Value.nil false)
      ∧ u.sm.store.lookup "a" = some u.val
      ∧ Get u.sm "a" = Except.ok g ∧ g.val = (u.val, true) :=
  ⟨rfl, update_calls_once_stores_returns ⟨Chan.opened, storeA⟩ "a" addTen rfl⟩

/-- C4: after any finite sequence of `Put`, `Remove` and `Update` calls on a
freshly constructed map, `Len()` returns the number of distinct keys for which
`Get` would return `exists = true`. -/
theorem len_counts_present_keys (ms : List Mutation) :
    ∃ sm l, applyAll New ms = Except.ok sm ∧ Len sm = Except.ok l
      ∧ l.val = Set.ncard {k : String | ∃ g, Get sm k = Except.ok g ∧ g.val.2 = true} := by
  obtain ⟨store, hs⟩ := applyAll_opened ∅ ms
  refine ⟨_, _, hs, Len_opened store, ?_⟩
  have hset : {k : String | ∃ g, Get ⟨Chan.opened, store⟩ k = Except.ok g ∧ g.val.2 = true}
      = (↑store.keys : Set String) := by
    ext k
    simp only [Get_opened, Set.mem_setOf_eq, Finset.mem_coe, Finmap.mem_keys]
    constructor
    · rintro ⟨g, hg, ht⟩
      cases hg
      exact (index_snd_eq_true store k).mp ht
    · intro hk
      exact ⟨_, rfl, (index_snd_eq_true store k).mpr hk⟩
  rw [hset, Set.ncard_coe_Finset]
  exact len_eq_card_keys store

/-- C5: `AsyncLen` sends a command whose action is `get`, so the run loop never
reaches the `length` branch: on the store `{"a": 1}` the call returns, the run
loop performs no event at all, the length callback is not invoked, while a
synchronous `Len()` at the same position returns 1. -/
theorem asyncLen_never_invokes_callback :
    ∃ a l, AsyncLen ⟨Chan.opened, storeA⟩ "a" true = Except.ok a
      ∧ a.events = [] ∧ lenCallBacks a.events = []
      ∧ Len ⟨Chan.opened, storeA⟩ = Except.ok l ∧ l.val = 1 :=
  ⟨_, _, rfl, rfl, rfl, rfl, by decide⟩

/-- C6: on the store `{"a": 1}` the map returned by `Snapshot()` is empty: it has
no entry for `"a"`, which the store maps to 1. -/
theorem snapshot_of_nonempty_store_is_empty :
    ∃ s, Snapshot ⟨Chan.opened, storeA⟩ = Except.ok s
      ∧ s.val = ∅ ∧ s.val.lookup "a" = none ∧ storeA.lookup "a" = some (Value.int 1) :=
  ⟨_, Snapshot_opened storeA, rfl, rfl, by decide⟩

/-- C7: on the store `{"a": 1, "f": func}` the deep copy fails with a non-nil
error, and `Snapshot()` still returns normally, with the empty map, the
store having two entries. -/
theorem snapshot_drops_deepCopy_error :
    (deepCopy (Target.nonPointer ∅) storeF).2.isSome = true
      ∧ ∃ s, Snapshot ⟨Chan.opened, storeF⟩ = Except.ok s ∧ s.val = ∅ ∧ len storeF = 2 :=
  ⟨by decide, _, Snapshot_opened storeF, rfl, by decide⟩

/-- C8: in a running map, `Close()` returns the store as it is when the command
is processed and leaves the command channel closed. -/
theorem close_returns_live_store (sm : SafeMap) (h : sm.commandStream = Chan.opened) :
    ∃ c, Close sm = Except.ok c ∧ c.val = sm.store ∧ c.sm.commandStream = Chan.closed := by
  obtain ⟨cs, store⟩ := sm
  subst h
  exact ⟨_, Close_opened store, rfl, rfl⟩

theorem close_returns_live_store_witness :
    (SafeMap.mk Chan.opened storeA).commandStream = Chan.opened
      ∧ ∃ c, Close ⟨Chan.opened, storeA⟩ = Except.ok c ∧ c.val = storeA
        ∧ c.sm.commandStream = Chan.closed :=
  ⟨rfl, close_returns_live_store ⟨Chan.opened, storeA⟩ rfl⟩

/-- C9, as stated, fails: after `Close()` on a new map, `Get("a")` does not
return at all, it panics on its send. -/
theorem get_after_close_does_not_return :
    ∃ c, Close New = Except.ok c
      ∧ Get c.sm "a" = Except.error Fault.sendOnClosedChannel
      ∧ ¬ ∃ g, Get c.sm "a" = Except.ok g :=
  ⟨_, rfl, rfl, by rintro ⟨g, hg⟩; cases hg⟩

/-- C9, amended: once the command channel is closed, every public method panics
on its send to the closed channel and returns nothing to its caller. -/
theorem every_method_panics_when_closed (sm : SafeMap) (h : sm.commandStream = Chan.closed)
    (k : String) (v : Value) (f : Option updater) (cb : Bool) :
    Put sm k v = Except.error Fault.sendOnClosedChannel
      ∧ Remove sm k = Except.error Fault.sendOnClosedChannel
      ∧ Get sm k = Except.error Fault.sendOnClosedChannel
      ∧ Len sm = Except.error Fault.sendOnClosedChannel
      ∧ Update sm k f = Except.error Fault.sendOnClosedChannel
      ∧ Snapshot sm = Except.error Fault.sendOnClosedChannel
      ∧ AsyncGet sm k cb = Except.error Fault.sendOnClosedChannel
      ∧ AsyncLen sm k cb = Except.error Fault.sendOnClosedChannel
      ∧ AsyncUpdate sm k f cb = Except.error Fault.sendOnClosedChannel
      ∧ Close sm = Except.error Fault.sendOnClosedChannel := by
  obtain ⟨cs, store⟩ := sm
  subst h
  exact ⟨rfl, rfl, rfl, rfl, rfl, rfl, rfl, rfl, rfl, rfl⟩

theorem every_method_panics_when_closed_witness :
    (SafeMap.mk Chan.closed storeA).commandStream = Chan.closed
      ∧ Put ⟨Chan.closed, storeA⟩ "b" (Value.int 2) = Except.error Fault.sendOnClosedChannel
      ∧ Get ⟨Chan.closed, storeA⟩ "b" = Except.error Fault.sendOnClosedChannel
      ∧ Close ⟨Chan.closed, storeA⟩ = Except.error Fault.sendOnClosedChannel :=
  have w := every_method_panics_when_closed ⟨Chan.closed, storeA⟩ rfl "b" (Value.int 2)
    (some addTen) true
  ⟨rfl, w.1, w.2.2.1, w.2.2.2.2.2.2.2.2.2⟩

/-- C10: after `Close()` on a running map the channel is closed; every later call
of a public method panics on its send, and whatever calls are made
afterwards, the run loop performs no event and the system, whose store is
the map `Close` returned, stays as it is. -/
theorem closed_is_terminal (sm : SafeMap) (h : sm.commandStream = Chan.opened)
    (calls : List Call) :
    ∃ c, Close sm = Except.ok c
      ∧ c.sm.commandStream = Chan.closed
      ∧ c.sm.store = c.val
      ∧ (∀ call : Call, call.exec c.sm = Except.error Fault.sendOnClosedChannel)
      ∧ afterCalls c.sm calls = Except.ok (c.sm, []) := by
  obtain ⟨cs, store⟩ := sm
  subst h
  exact ⟨_, Close_opened store, rfl, rfl, exec_closed store, afterCalls_closed store calls⟩

theorem closed_is_terminal_witness :
    (SafeMap.mk Chan.opened storeA).commandStream = Chan.opened
      ∧ ∃ c, Close ⟨Chan.opened, storeA⟩ = Except.ok c
        ∧ c.sm.commandStream = Chan.closed
        ∧ c.sm.store = c.val
        ∧ (∀ call : Call, call.exec c.sm = Except.error Fault.sendOnClosedChannel)
        ∧ afterCalls c.sm [Call.put "a" (Value.int 7), Call.remove "a", Call.close]
            = Except.ok (c.sm, []) :=
  ⟨rfl, closed_is_terminal ⟨Chan.opened, storeA⟩ rfl
    [Call.put "a" (Value.int 7), Call.remove "a", Call.close]⟩

/-- C11: in a running map `Get(k)` returns `exists = false` exactly when `k` has
no entry: a stored nil is returned as `(nil, true)`, also right after
`Put(k, nil)`, while a key that no call since `New` has named, and a key just
removed, give `(nil, false)`. -/
theorem get_exists_iff_stored (sm : SafeMap) (k : String) (ms : List Mutation)
    (h : sm.commandStream = Chan.opened) (hms : ∀ m ∈ ms, Mutation.key m ≠ k) :
    (∃ g, Get sm k = Except.ok g
        ∧ (g.val.2 = false ↔ sm.store.lookup k = none)
        ∧ (sm.store.lookup k = none → g.val = (Value.nil, false))
        ∧ (sm.store.lookup k = some Value.nil → g.val = (Value.nil, true)))
      ∧ (∃ p g, Put sm k Value.nil = Except.ok p ∧ Get p.sm k = Except.ok g
          ∧ g.val = (Value.nil, true))
      ∧ (∃ p g, Remove sm k = Except.ok p ∧ Get p.sm k = Except.ok g
          ∧ g.val = (Value.nil, false))
      ∧ (∃ fresh g, applyAll New ms = Except.ok fresh ∧ Get fresh k = Except.ok g
          ∧ g.val = (Value.nil, false)) := by
  obtain ⟨cs, store⟩ := sm
  subst h
  refine ⟨⟨_, Get_opened store k, ?_, ?_, ?_⟩,
    ⟨_, _, Put_opened store k Value.nil, Get_opened _ k, index_insert_self store k Value.nil⟩,
    ⟨_, _, Remove_opened store k, Get_opened _ k, index_erase_self store k⟩, ?_⟩
  · show (index store k).2 = false ↔ store.lookup k = none
    unfold index
    cases store.lookup k <;> simp
  · intro hn
    show index store k = (Value.nil, false)
    simp [index, hn]
  · intro hs
    show index store k = (Value.nil, true)
    simp [index, hs]
  · obtain ⟨store1, h1, h2⟩ := applyAll_lookup_of_ne k ms ∅ hms
    refine ⟨_, _, h1, Get_opened store1 k, ?_⟩
    show index store1 k = (Value.nil, false)
    rw [Finmap.lookup_empty] at h2
    simp [index, h2]

theorem get_exists_iff_stored_witness :
    (SafeMap.mk Chan.opened storeA).commandStream = Chan.opened
      ∧ (∀ m ∈ [Mutation.put "a" (Value.int 1), Mutation.remove "c"], Mutation.key m ≠ "b")
      ∧ (∃ g, Get ⟨Chan.opened, storeA⟩ "b" = Except.ok g
          ∧ (g.val.2 = false ↔ storeA.lookup "b" = none)
          ∧ (storeA.lookup "b" = none → g.val = (Value.nil, false))
          ∧ (storeA.lookup "b" = some Value.nil → g.val = (Value.nil, true)))
      ∧ (∃ p g, Put ⟨Chan.opened, storeA⟩ "b" Value.nil = Except.ok p
          ∧ Get p.sm "b" = Except.ok g ∧ g.val = (Value.nil, true))
      ∧ (∃ p g, Remove ⟨Chan.opened, storeA⟩ "b" = Except.ok p
          ∧ Get p.sm "b" = Except.ok g ∧ g.val = (Value.nil, false))
      ∧ (∃ fresh g,
          applyAll New [Mutation.put "a" (Value.int 1), Mutation.remove "c"] = Except.ok fresh
          ∧ Get fresh "b" = Except.ok g ∧ g.val = (Value.nil, false)) :=
  ⟨rfl, by decide,
    get_exists_iff_stored ⟨Chan.opened, storeA⟩ "b"
      [Mutation.put "a" (Value.int 1), Mutation.remove "c"] rfl (by decide)⟩

/-- C12: in a running map `AsyncGet(k, callback)` with a non-nil callback invokes
the callback exactly once, with the pair a synchronous `Get(k)` returns at
the same position, and leaves the system as it was. -/
theorem asyncGet_agrees_with_get (sm : SafeMap) (k : String)
    (h : sm.commandStream = Chan.opened) :
    ∃ a g, AsyncGet sm k true = Except.ok a ∧ Get sm k = Except.ok g
      ∧ getCallBacks a.events = [g.val] ∧ a.sm = sm := by
  obtain ⟨cs, store⟩ := sm
  subst h
  exact ⟨_, _, AsyncGet_opened store k, Get_opened store k, rfl, rfl⟩

theorem asyncGet_agrees_with_get_witness :
    (SafeMap.mk Chan.opened storeA).commandStream = Chan.opened
      ∧ ∃ a g, AsyncGet ⟨Chan.opened, storeA⟩ "a" true = Except.ok a
        ∧ Get ⟨Chan.opened, storeA⟩ "a" = Except.ok g
        ∧ getCallBacks a.events = [g.val] ∧ a.sm = ⟨Chan.opened, storeA⟩ :=
  ⟨rfl, asyncGet_agrees_with_get ⟨Chan.opened, storeA⟩ "a" rfl⟩

/-- C13: in a running map `AsyncUpdate(k, f, callback)` with a non-nil callback
leaves the system in the state `Update(k, f)` leaves it in, calls the updater
with the same arguments, and invokes the callback exactly once, with the
value `Update(k, f)` returns. -/
theorem asyncUpdate_agrees_with_update (sm : SafeMap) (k : String) (f : updater)
    (h : sm.commandStream = Chan.opened) :
    ∃ a u, AsyncUpdate sm k (some f) true = Except.ok a ∧ Update sm k (some f) = Except.ok u
      ∧ a.sm = u.sm ∧ updateCallBacks a.events = [u.val]
      ∧ updaterCalls a.events = updaterCalls u.events := by
  obtain ⟨cs, store⟩ := sm
  subst h
  exact ⟨_, _, AsyncUpdate_opened store k f, Update_opened store k f, rfl, rfl, rfl⟩

theorem asyncUpdate_agrees_with_update_witness :
    (SafeMap.mk Chan.opened storeA).commandStream = Chan.opened
      ∧ ∃ a u, AsyncUpdate ⟨Chan.opened, storeA⟩ "a" (some addTen) true = Except.ok a
        ∧ Update ⟨Chan.opened, storeA⟩ "a" (some addTen) = Except.ok u
        ∧ a.sm = u.sm ∧ updateCallBacks a.events = [u.val]
        ∧ updaterCalls a.events = updaterCalls u.events :=
  ⟨rfl, asyncUpdate_agrees_with_update ⟨Chan.opened, storeA⟩ "a" addTen rfl⟩

/-- C15: in a running map, `Remove(k)` for a key with no entry changes nothing:
the system afterwards is the one before, every key is looked up as before
and `Len()` returns the same count. -/
theorem remove_absent_is_noop (sm : SafeMap) (k : String)
    (h : sm.commandStream = Chan.opened) (hk : sm.store.lookup k = none) :
    ∃ p l0 l1, Remove sm k = Except.ok p ∧ p.sm = sm
      ∧ (∀ x, p.sm.store.lookup x = sm.store.lookup x)
      ∧ Len sm = Except.ok l0 ∧ Len p.sm = Except.ok l1 ∧ l1.val = l0.val := by
  obtain ⟨cs, store⟩ := sm
  subst h
  have he : store.erase k = store := erase_of_lookup_eq_none store k hk
  refine ⟨_, _, _, Remove_opened store k, ?_, ?_, Len_opened store, Len_opened _, ?_⟩
  · show SafeMap.mk Chan.opened (store.erase k) = ⟨Chan.opened, store⟩
    rw [he]
  · intro x
    show (store.erase k).lookup x = store.lookup x
    rw [he]
  · show len (store.erase k) = len store
    rw [he]

theorem remove_absent_is_noop_witness :
    (SafeMap.mk Chan.opened storeA).commandStream = Chan.opened
      ∧ storeA.lookup "b" = none
      ∧ ∃ p l0 l1, Remove ⟨Chan.opened, storeA⟩ "b" = Except.ok p
        ∧ p.sm = ⟨Chan.opened, storeA⟩
        ∧ (∀ x, p.sm.store.lookup x = storeA.lookup x)
        ∧ Len ⟨Chan.opened, storeA⟩ = Except.ok l0 ∧ Len p.sm = Except.ok l1
        ∧ l1.val = l0.val :=
  ⟨rfl, by decide, remove_absent_is_noop ⟨Chan.opened, storeA⟩ "b" rfl (by decide)⟩

/-- C16: in a running map `Get`, `AsyncGet`, `Len`, `AsyncLen` and `Snapshot`
return and leave the system, and so the store, exactly as it was, for every
store, whatever the outcome of the deep copy in `Snapshot`. -/
theorem queries_leave_store_unchanged (sm : SafeMap) (k : String) (cb : Bool)
    (h : sm.commandStream = Chan.opened) :
    (∃ r, Get sm k = Except.ok r ∧ r.sm = sm)
      ∧ (∃ r, AsyncGet sm k cb = Except.ok r ∧ r.sm = sm)
      ∧ (∃ r, Len sm = Except.ok r ∧ r.sm = sm)
      ∧ (∃ r, AsyncLen sm k cb = Except.ok r ∧ r.sm = sm)
      ∧ (∃ r, Snapshot sm = Except.ok r ∧ r.sm = sm) := by
  obtain ⟨cs, store⟩ := sm
  subst h
  exact ⟨⟨_, Get_opened store k, rfl⟩, ⟨_, rfl, rfl⟩, ⟨_, Len_opened store, rfl⟩,
    ⟨_, AsyncLen_opened store k cb, rfl⟩, ⟨_, Snapshot_opened store, rfl⟩⟩

theorem queries_leave_store_unchanged_witness :
    (SafeMap.mk Chan.opened storeF).commandStream = Chan.opened
      ∧ (∃ r, Get ⟨Chan.opened, storeF⟩ "a" = Except.ok r ∧ r.sm = ⟨Chan.opened, storeF⟩)
      ∧ (∃ r, AsyncGet ⟨Chan.opened, storeF⟩ "a" true = Except.ok r
          ∧ r.sm = ⟨Chan.opened, storeF⟩)
      ∧ (∃ r, Len ⟨Chan.opened, storeF⟩ = Except.ok r ∧ r.sm = ⟨Chan.opened, storeF⟩)
      ∧ (∃ r, AsyncLen ⟨Chan.opened, storeF⟩ "a" true = Except.ok r
          ∧ r.sm = ⟨Chan.opened, storeF⟩)
      ∧ (∃ r, Snapshot ⟨Chan.opened, storeF⟩ = Except.ok r ∧ r.sm = ⟨Chan.opened, storeF⟩) :=
  ⟨rfl, queries_leave_store_unchanged ⟨Chan.opened, storeF⟩ "a" true rfl⟩

/-- C17: in a running map a `Put`, `Remove` or `Update` on a key leaves the
result of `Get` on every other key as it was. -/
theorem mutation_touches_only_its_key (sm : SafeMap) (m : Mutation) (k1 : String)
    (h : sm.commandStream = Chan.opened) (hk : k1 ≠ Mutation.key m) :
    ∃ r g0 g1, Mutation.call sm m = Except.ok r ∧ Get sm k1 = Except.ok g0
      ∧ Get r.sm k1 = Except.ok g1 ∧ g1.val = g0.val := by
  obtain ⟨cs, store⟩ := sm
  subst h
  cases m with
  | put k v =>
    exact ⟨_, _, _, rfl, Get_opened store k1, Get_opened _ k1, index_insert_of_ne store v hk⟩
  | remove k =>
    exact ⟨_, _, _, rfl, Get_opened store k1, Get_opened _ k1, index_erase_of_ne store hk⟩
  | update k f =>
    exact ⟨_, _, _, rfl, Get_opened store k1, Get_opened _ k1, index_insert_of_ne store _ hk⟩

theorem mutation_touches_only_its_key_witness :
    (SafeMap.mk Chan.opened storeA).commandStream = Chan.opened
      ∧ "a" ≠ Mutation.key (Mutation.update "b" addTen)
      ∧ ∃ r g0 g1, Mutation.call ⟨Chan.opened, storeA⟩ (Mutation.update "b" addTen) = Except.ok r
        ∧ Get ⟨Chan.opened, storeA⟩ "a" = Except.ok g0
        ∧ Get r.sm "a" = Except.ok g1 ∧ g1.val = g0.val :=
  ⟨rfl, by decide,
    mutation_touches_only_its_key ⟨Chan.opened, storeA⟩ (Mutation.update "b" addTen) "a" rfl
      (by decide)⟩

/-- C19: in a running map `Put(k, v1)` followed by `Put(k, v2)` leaves the
system that `Put(k, v2)` alone leaves, and `Len()` returns the same count
after both. -/
theorem put_last_write_wins (sm : SafeMap) (k : String) (v1 v2 : Value)
    (h : sm.commandStream = Chan.opened) :
    ∃ p1 p2 q l1 l2, Put sm k v1 = Except.ok p1 ∧ Put p1.sm k v2 = Except.ok p2
      ∧ Put sm k v2 = Except.ok q ∧ p2.sm = q.sm
      ∧ Len p2.sm = Except.ok l1 ∧ Len q.sm = Except.ok l2 ∧ l1.val = l2.val := by
  obtain ⟨cs, store⟩ := sm
  subst h
  have hi : (store.insert k v1).insert k v2 = store.insert k v2 := Finmap.insert_insert store
  refine ⟨_, _, _, _, _, Put_opened store k v1, Put_opened _ k v2, Put_opened store k v2, ?_,
    Len_opened _, Len_opened _, ?_⟩
  · show SafeMap.mk Chan.opened ((store.insert k v1).insert k v2) = ⟨Chan.opened, store.insert k v2⟩
    rw [hi]
  · show len ((store.insert k v1).insert k v2) = len (store.insert k v2)
    rw [hi]

theorem put_last_write_wins_witness :
    (SafeMap.mk Chan.opened storeA).commandStream = Chan.opened
      ∧ ∃ p1 p2 q l1 l2, Put ⟨Chan.opened, storeA⟩ "a" (Value.int 2) = Except.ok p1
        ∧ Put p1.sm "a" (Value.int 3) = Except.ok p2
        ∧ Put ⟨Chan.opened, storeA⟩ "a" (Value.int 3) = Except.ok q ∧ p2.sm = q.sm
        ∧ Len p2.sm = Except.ok l1 ∧ Len q.sm = Except.ok l2 ∧ l1.val = l2.val :=
  ⟨rfl, put_last_write_wins ⟨Chan.opened, storeA⟩ "a" (Value.int 2) (Value.int 3) rfl⟩

/-- C18: in a running map two mutating calls (`Put`, `Remove` or `Update`) on
distinct keys commute: made in either order they leave the same system, and
each `Update` returns the same value in both orders. -/
theorem mutations_on_distinct_keys_commute (sm : SafeMap) (m1 m2 : Mutation)
    (h : sm.commandStream = Chan.opened) (hk : Mutation.key m1 ≠ Mutation.key m2) :
    ∃ a1 a2 b2 b1, Mutation.call sm m1 = Except.ok a1 ∧ Mutation.call a1.sm m2 = Except.ok a2
      ∧ Mutation.call sm m2 = Except.ok b2 ∧ Mutation.call b2.sm m1 = Except.ok b1
      ∧ a2.sm = b1.sm ∧ a1.val = b1.val ∧ a2.val = b2.val := by
  obtain ⟨cs, store⟩ := sm
  subst h
  cases m1 with
  | put k1 v1 =>
    cases m2 with
    | put k2 v2 =>
      have h12 : k1 ≠ k2 := hk
      refine ⟨_, _, _, _, rfl, rfl, rfl, rfl, ?_, rfl, rfl⟩
      show SafeMap.mk Chan.opened ((store.insert k1 v1).insert k2 v2)
        = ⟨Chan.opened, (store.insert k2 v2).insert k1 v1⟩
      rw [Finmap.insert_insert_of_ne store (Ne.symm h12)]
    | remove k2 =>
      have h12 : k1 ≠ k2 := hk
      refine ⟨_, _, _, _, rfl, rfl, rfl, rfl, ?_, rfl, rfl⟩
      show SafeMap.mk Chan.opened ((store.insert k1 v1).erase k2)
        = ⟨Chan.opened, (store.erase k2).insert k1 v1⟩
      rw [erase_insert_of_ne store v1 h12]
    | update k2 f2 =>
      have h12 : k1 ≠ k2 := hk
      refine ⟨_, _, _, _, rfl, rfl, rfl, rfl, ?_, rfl, ?_⟩
      · show SafeMap.mk Chan.opened ((store.insert k1 v1).insert k2
            (f2 (index (store.insert k1 v1) k2).1 (index (store.insert k1 v1) k2).2))
          = ⟨Chan.opened,
              (store.insert k2 (f2 (index store k2).1 (index store k2).2)).insert k1 v1⟩
        rw [index_insert_of_ne store v1 (Ne.symm h12),
          Finmap.insert_insert_of_ne store (Ne.symm h12)]
      · show some (index ((store.insert k1 v1).insert k2
            (f2 (index (store.insert k1 v1) k2).1 (index (store.insert k1 v1) k2).2)) k2).1
          = some (index (store.insert k2 (f2 (index store k2).1 (index store k2).2)) k2).1
        rw [index_insert_of_ne store v1 (Ne.symm h12), index_insert_self, index_insert_self]
  | remove k1 =>
    cases m2 with
    | put k2 v2 =>
      have h12 : k1 ≠ k2 := hk
      refine ⟨_, _, _, _, rfl, rfl, rfl, rfl, ?_, rfl, rfl⟩
      show SafeMap.mk Chan.opened ((store.erase k1).insert k2 v2)
        = ⟨Chan.opened, (store.insert k2 v2).erase k1⟩
      rw [erase_insert_of_ne store v2 (Ne.symm h12)]
    | remove k2 =>
      refine ⟨_, _, _, _, rfl, rfl, rfl, rfl, ?_, rfl, rfl⟩
      show SafeMap.mk Chan.opened ((store.erase k1).erase k2)
        = ⟨Chan.opened, (store.erase k2).erase k1⟩
      rw [Finmap.erase_erase]
    | update k2 f2 =>
      have h12 : k1 ≠ k2 := hk
      refine ⟨_, _, _, _, rfl, rfl, rfl, rfl, ?_, rfl, ?_⟩
      · show SafeMap.mk Chan.opened ((store.erase k1).insert k2
            (f2 (index (store.erase k1) k2).1 (index (store.erase k1) k2).2))
          = ⟨Chan.opened,
              (store.insert k2 (f2 (index store k2).1 (index store k2).2)).erase k1⟩
        rw [index_erase_of_ne store (Ne.symm h12), erase_insert_of_ne store _ (Ne.symm h12)]
      · show some (index ((store.erase k1).insert k2
            (f2 (index (store.erase k1) k2).1 (index (store.erase k1) k2).2)) k2).1
          = some (index (store.insert k2 (f2 (index store k2).1 (index store k2).2)) k2).1
        rw [index_erase_of_ne store (Ne.symm h12), index_insert_self, index_insert_self]
  | update k1 f1 =>
    cases m2 with
    | put k2 v2 =>
      have h12 : k1 ≠ k2 := hk
      refine ⟨_, _, _, _, rfl, rfl, rfl, rfl, ?_, ?_, rfl⟩
      · show SafeMap.mk Chan.opened
            ((store.insert k1 (f1 (index store k1).1 (index store k1).2)).insert k2 v2)
          = ⟨Chan.opened, (store.insert k2 v2).insert k1
              (f1 (index (store.insert k2 v2) k1).1 (index (store.insert k2 v2) k1).2)⟩
        rw [index_insert_of_ne store v2 h12, Finmap.insert_insert_of_ne store (Ne.symm h12)]
      · show some (index (store.insert k1 (f1 (index store k1).1 (index store k1).2)) k1).1
          = some (index ((store.insert k2 v2).insert k1
              (f1 (index (store.insert k2 v2) k1).1 (index (store.insert k2 v2) k1).2)) k1).1
        rw [index_insert_of_ne store v2 h12, index_insert_self, index_insert_self]
    | remove k2 =>
      have h12 : k1 ≠ k2 := hk
      refine ⟨_, _, _, _, rfl, rfl, rfl, rfl, ?_, ?_, rfl⟩
      · show SafeMap.mk Chan.opened
            ((store.insert k1 (f1 (index store k1).1 (index store k1).2)).erase k2)
          = ⟨Chan.opened, (store.erase k2).insert k1
              (f1 (index (store.erase k2) k1).1 (index (store.erase k2) k1).2)⟩
        rw [index_erase_of_ne store h12, erase_insert_of_ne store _ h12]
      · show some (index (store.insert k1 (f1 (index store k1).1 (index store k1).2)) k1).1
          = some (index ((store.erase k2).insert k1
              (f1 (index (store.erase k2) k1).1 (index (store.erase k2) k1).2)) k1).1
        rw [index_erase_of_ne store h12, index_insert_self, index_insert_self]
    | update k2 f2 =>
      have h12 : k1 ≠ k2 := hk
      have e1 : index (store.insert k1 (f1 (index store k1).1 (index store k1).2)) k2
          = index store k2 := index_insert_of_ne store _ (Ne.symm h12)
      have e2 : index (store.insert k2 (f2 (index store k2).1 (index store k2).2)) k1
          = index store k1 := index_insert_of_ne store _ h12
      refine ⟨_, _, _, _, rfl, rfl, rfl, rfl, ?_, ?_, ?_⟩
      · show SafeMap.mk Chan.opened
            ((store.insert k1 (f1 (index store k1).1 (index store k1).2)).insert k2
              (f2 (index (store.insert k1 (f1 (index store k1).1 (index store k1).2)) k2).1
                (index (store.insert k1 (f1 (index store k1).1 (index store k1).2)) k2).2))
          = ⟨Chan.opened,
              (store.insert k2 (f2 (index store k2).1 (index store k2).2)).insert k1
                (f1 (index (store.insert k2 (f2 (index store k2).1 (index store k2).2)) k1).1
                  (index (store.insert k2 (f2 (index store k2).1 (index store k2).2)) k1).2)⟩
        rw [e1, e2, Finmap.insert_insert_of_ne store (Ne.symm h12)]
      · show some (index (store.insert k1 (f1 (index store k1).1 (index store k1).2)) k1).1
          = some (index ((store.insert k2 (f2 (index store k2).1 (index store k2).2)).insert k1
              (f1 (index (store.insert k2 (f2 (index store k2).1 (index store k2).2)) k1).1
                (index (store.insert k2 (f2 (index store k2).1 (index store k2).2)) k1).2))
              k1).1
        rw [e2, index_insert_self, index_insert_self]
      · show some (index ((store.insert k1 (f1 (index store k1).1 (index store k1).2)).insert k2
              (f2 (index (store.insert k1 (f1 (index store k1).1 (index store k1).2)) k2).1
                (index (store.insert k1 (f1 (index store k1).1 (index store k1).2)) k2).2))
              k2).1
          = some (index (store.insert k2 (f2 (index store k2).1 (index store k2).2)) k2).1
        rw [e1, index_insert_self, index_insert_self]

theorem mutations_on_distinct_keys_commute_witness :
    (SafeMap.mk Chan.opened storeA).commandStream = Chan.opened
      ∧ Mutation.key (Mutation.update "a" addTen) ≠ Mutation.key (Mutation.put "b" (Value.int 2))
      ∧ ∃ a1 a2 b2 b1,
        Mutation.call ⟨Chan.opened, storeA⟩ (Mutation.update "a" addTen) = Except.ok a1
        ∧ Mutation.call a1.sm (Mutation.put "b" (Value.int 2)) = Except.ok a2
        ∧ Mutation.call ⟨Chan.opened, storeA⟩ (Mutation.put "b" (Value.int 2)) = Except.ok b2
        ∧ Mutation.call b2.sm (Mutation.update "a" addTen) = Except.ok b1
        ∧ a2.sm = b1.sm ∧ a1.val = b1.val ∧ a2.val = b2.val :=
  ⟨rfl, by decide,
    mutations_on_distinct_keys_commute ⟨Chan.opened, storeA⟩ (Mutation.update "a" addTen)
      (Mutation.put "b" (Value.int 2)) rfl (by decide)⟩

end Safemap
